import Mathlib

/-!
Verification of the Ewald summation engine of the lumol molecular
simulation code, over a shallow embedding in exact rational arithmetic.

The engine's floating-point arithmetic is idealised as arithmetic in ℚ.
The transcendental functions supplied by the platform math library
(`exp`, `erf`, `erfc`, `sqrt`, `cos`, `sin`) and the constant π are not
part of the repository: they are abstracted as a bundled parameter
`MathFns`, carrying only the facts about them that the code relies on
(π is positive, `sqrt 0 = 0`, `cos 0 = 1`, `sin 0 = 0`). Every
definition is parametric in this bundle, and concrete instantiations are
used to evaluate the model on explicit inputs.

Fatal errors (`assert!`, `fatal_error!`) are modelled by `Option`:
`none` is a fatal abort, `some` a normal return.
-/

namespace Lumol

/-- Interface of the external math library and of the float constants the
Ewald code uses. Only the properties that the source relies on are
recorded.  -/
structure MathFns where
  pi : ℚ
  exp : ℚ → ℚ
  sqrt : ℚ → ℚ
  erf : ℚ → ℚ
  erfc : ℚ → ℚ
  cos : ℚ → ℚ
  sin : ℚ → ℚ
  pi_pos : 0 < pi
  sqrt_zero : sqrt 0 = 0
  cos_zero : cos 0 = 1
  sin_zero : sin 0 = 0

/-- The constant `4 * pi * epsilon_0` from `src/core/src/consts.rs`,
written with the exact source literal. -/
def ELCC : ℚ := 7.197589831304046

/-- The float machine epsilon `f64::EPSILON = 2^-52`, used by the k-space
loops to skip negligible `expfactors` entries. -/
def EPSILON : ℚ := 1 / 2 ^ 52

/-- Cartesian 3d vector over ℚ, embedding `types::Vector3D`. -/
@[ext]
structure Vector3D where
  x : ℚ
  y : ℚ
  z : ℚ
deriving DecidableEq

namespace Vector3D

instance : Zero Vector3D := ⟨⟨0, 0, 0⟩⟩

instance : Add Vector3D := ⟨fun a b => ⟨a.x + b.x, a.y + b.y, a.z + b.z⟩⟩

instance : Neg Vector3D := ⟨fun a => ⟨-a.x, -a.y, -a.z⟩⟩

instance : Sub Vector3D := ⟨fun a b => ⟨a.x - b.x, a.y - b.y, a.z - b.z⟩⟩

instance : SMul ℚ Vector3D := ⟨fun q a => ⟨q * a.x, q * a.y, q * a.z⟩⟩

@[simp] theorem zero_x : (0 : Vector3D).x = 0 := rfl
@[simp] theorem zero_y : (0 : Vector3D).y = 0 := rfl
@[simp] theorem zero_z : (0 : Vector3D).z = 0 := rfl
@[simp] theorem add_x (a b : Vector3D) : (a + b).x = a.x + b.x := rfl
@[simp] theorem add_y (a b : Vector3D) : (a + b).y = a.y + b.y := rfl
@[simp] theorem add_z (a b : Vector3D) : (a + b).z = a.z + b.z := rfl
@[simp] theorem sub_x (a b : Vector3D) : (a - b).x = a.x - b.x := rfl
@[simp] theorem sub_y (a b : Vector3D) : (a - b).y = a.y - b.y := rfl
@[simp] theorem sub_z (a b : Vector3D) : (a - b).z = a.z - b.z := rfl
@[simp] theorem smul_x (q : ℚ) (a : Vector3D) : (q • a).x = q * a.x := rfl
@[simp] theorem smul_y (q : ℚ) (a : Vector3D) : (q • a).y = q * a.y := rfl
@[simp] theorem smul_z (q : ℚ) (a : Vector3D) : (q • a).z = q * a.z := rfl

/-- Squared euclidean norm, embedding `Vector3D::norm2`. -/
def norm2 (v : Vector3D) : ℚ := v.x * v.x + v.y * v.y + v.z * v.z

/-- Component access by integer index, as `v[d]` in the source. -/
def nth (v : Vector3D) (d : ℕ) : ℚ :=
  if d = 0 then v.x else if d = 1 then v.y else if d = 2 then v.z else 0

end Vector3D

/-- Complex number with rational components, embedding `types::Complex`
(a plain cartesian complex number). -/
@[ext]
structure Complex where
  re : ℚ
  im : ℚ
deriving DecidableEq

namespace Complex

instance : Zero Complex := ⟨⟨0, 0⟩⟩

instance : Add Complex := ⟨fun a b => ⟨a.re + b.re, a.im + b.im⟩⟩

instance : Neg Complex := ⟨fun a => ⟨-a.re, -a.im⟩⟩

instance : Sub Complex := ⟨fun a b => ⟨a.re - b.re, a.im - b.im⟩⟩

@[simp] theorem zero_re : (0 : Complex).re = 0 := rfl
@[simp] theorem zero_im : (0 : Complex).im = 0 := rfl
@[simp] theorem add_re (a b : Complex) : (a + b).re = a.re + b.re := rfl
@[simp] theorem add_im (a b : Complex) : (a + b).im = a.im + b.im := rfl
@[simp] theorem neg_re (a : Complex) : (-a).re = -a.re := rfl
@[simp] theorem neg_im (a : Complex) : (-a).im = -a.im := rfl
@[simp] theorem sub_re (a b : Complex) : (a - b).re = a.re - b.re := rfl
@[simp] theorem sub_im (a b : Complex) : (a - b).im = a.im - b.im := rfl

instance : AddCommGroup Complex where
  add := (· + ·)
  zero := 0
  neg := Neg.neg
  sub := Sub.sub
  add_assoc a b c := by apply Complex.ext <;> simp <;> ring
  zero_add a := by apply Complex.ext <;> simp
  add_zero a := by apply Complex.ext <;> simp
  add_comm a b := by apply Complex.ext <;> simp <;> ring
  neg_add_cancel a := by apply Complex.ext <;> simp
  sub_eq_add_neg a b := by apply Complex.ext <;> simp <;> ring
  nsmul := nsmulRec
  zsmul := zsmulRec

instance : Mul Complex :=
  ⟨fun a b => ⟨a.re * b.re - a.im * b.im, a.re * b.im + a.im * b.re⟩⟩

instance : SMul ℚ Complex := ⟨fun q a => ⟨q * a.re, q * a.im⟩⟩

@[simp] theorem mul_re (a b : Complex) :
    (a * b).re = a.re * b.re - a.im * b.im := rfl
@[simp] theorem mul_im (a b : Complex) :
    (a * b).im = a.re * b.im + a.im * b.re := rfl
@[simp] theorem smul_re (q : ℚ) (a : Complex) : (q • a).re = q * a.re := rfl
@[simp] theorem smul_im (q : ℚ) (a : Complex) : (q • a).im = q * a.im := rfl

theorem smul_sub (q : ℚ) (a b : Complex) : q • (a - b) = q • a - q • b := by
  apply Complex.ext <;> simp <;> ring

theorem zero_smul (a : Complex) : (0 : ℚ) • a = 0 := by
  apply Complex.ext <;> simp

/-- Polar constructor, embedding `Complex::polar`. -/
def polar (fns : MathFns) (r phi : ℚ) : Complex :=
  ⟨r * fns.cos phi, r * fns.sin phi⟩

/-- Squared norm, embedding `Complex::norm2`. -/
def norm2 (a : Complex) : ℚ := a.re * a.re + a.im * a.im

/-- Norm, embedding `Complex::norm` (`sqrt` of `norm2`). -/
def norm (fns : MathFns) (a : Complex) : ℚ := fns.sqrt a.norm2

end Complex

/-- A 3x3 matrix of rationals, as used for the virial tensor. -/
abbrev Matrix3 := Fin 3 → Fin 3 → ℚ

/-- Tensor (outer) product of two vectors, embedding
`Vector3D::tensorial`. -/
def Vector3D.tensorial (v w : Vector3D) : Matrix3 :=
  fun a b => v.nth a.val * w.nth b.val

/-- Floor of a rational as an integer (kernel-computable: euclidean
division of the numerator by the positive denominator). -/
def qfloor (q : ℚ) : ℤ := Int.ediv q.num (q.den : ℤ)

/-- Round-to-nearest of a rational (half up). -/
def qround (q : ℚ) : ℤ := qfloor (q + 1 / 2)

/-- Fractional part of a rational, in `[0, 1)`. -/
def qfract (q : ℚ) : ℚ := q - (qfloor q : ℚ)

/-- Cell shapes of the abstract `System` interface. Modelled from the
spec: `shape() ∈ {Infinite, Orthorhombic, Triclinic}`. -/
inductive CellShape where
  | Infinite
  | Orthorhombic
  | Triclinic
deriving DecidableEq

/-- Modelled from the spec: the `sys::UnitCell` type is not under `src/`;
the engine consumes it only through `shape()`, `lengths()`,
`reciprocal_vectors()`, `volume()`, `fractional(p)` and minimum-image
`distance`. An orthorhombic cell is determined by its shape tag and its
three edge lengths. -/
structure UnitCell where
  shape : CellShape
  lengths : Vector3D
deriving DecidableEq

namespace UnitCell

/-- A cubic cell of side `l`, as `UnitCell::cubic`. -/
def cubic (l : ℚ) : UnitCell := ⟨CellShape.Orthorhombic, ⟨l, l, l⟩⟩

/-- Modelled from the spec: the reciprocal lattice vectors of an
orthorhombic cell are `2π/L_d` along each axis. -/
def reciprocal_vectors (fns : MathFns) (c : UnitCell) :
    Vector3D × Vector3D × Vector3D :=
  (⟨2 * fns.pi / c.lengths.x, 0, 0⟩,
   ⟨0, 2 * fns.pi / c.lengths.y, 0⟩,
   ⟨0, 0, 2 * fns.pi / c.lengths.z⟩)

/-- Modelled from the spec: the cell volume `Lx·Ly·Lz`. -/
def volume (c : UnitCell) : ℚ := c.lengths.x * c.lengths.y * c.lengths.z

/-- Modelled from the spec: fractional coordinates in `[0,1)³`. -/
def fractional (c : UnitCell) (p : Vector3D) : Vector3D :=
  ⟨qfract (p.x / c.lengths.x),
   qfract (p.y / c.lengths.y),
   qfract (p.z / c.lengths.z)⟩

/-- Modelled from the spec: minimum-image convention for a displacement
vector in an orthorhombic cell (wrap each component to the nearest
periodic image). -/
def min_image (c : UnitCell) (d : Vector3D) : Vector3D :=
  ⟨d.x - c.lengths.x * ((qround (d.x / c.lengths.x) : ℤ) : ℚ),
   d.y - c.lengths.y * ((qround (d.y / c.lengths.y) : ℤ) : ℚ),
   d.z - c.lengths.z * ((qround (d.z / c.lengths.z) : ℤ) : ℚ)⟩

/-- Modelled from the spec: `distance(p, q)` is the minimum-image
distance between two points. -/
def distance (fns : MathFns) (c : UnitCell) (p q : Vector3D) : ℚ :=
  fns.sqrt (c.min_image (p - q)).norm2

end UnitCell

/-- A point charge: the two fields of `sys::Particle` that the Ewald
engine reads. -/
structure Particle where
  charge : ℚ
  position : Vector3D
deriving DecidableEq

/-- The default particle used out of range (never reached by the code,
which indexes within bounds). -/
def defaultParticle : Particle := ⟨0, 0⟩

/-- Modelled from the spec: the narrow abstract `System` interface the
engine consumes. `bond_distance i j` is the bond-graph distance, `none`
when the particles are in different molecules (graph distance ∞). -/
structure System where
  cell : UnitCell
  particles : List Particle
  bond_distance : ℕ → ℕ → Option ℕ

namespace System

/-- Number of particles, as `System::size`. -/
def size (s : System) : ℕ := s.particles.length

/-- Particle access, as `system.particle(i)`. -/
def particle (s : System) (i : ℕ) : Particle :=
  s.particles.getD i defaultParticle

/-- Minimum-image distance between particles `i` and `j`. -/
def distance (fns : MathFns) (s : System) (i j : ℕ) : ℚ :=
  s.cell.distance fns (s.particle i).position (s.particle j).position

/-- Minimum-image displacement vector between particles `i` and `j`. -/
def nearest_image (s : System) (i j : ℕ) : Vector3D :=
  s.cell.min_image ((s.particle j).position - (s.particle i).position)

end System

/-- Restriction information for one pair, embedding
`energy::RestrictionInfo`. -/
structure RestrictionInfo where
  excluded : Bool
  scaling : ℚ
deriving DecidableEq

/-- Modelled from the spec: the two `PairRestriction` variants the engine
supports. -/
inductive PairRestriction where
  | None
  | InterMolecular
deriving DecidableEq

/-- Modelled from the spec: `information(graph_distance)`;
`InterMolecular` marks pairs at finite bond-graph distance (same
molecule) as excluded, `None` never excludes; both always return
`scaling = 1`. -/
def PairRestriction.information :
    PairRestriction → Option ℕ → RestrictionInfo
  | PairRestriction.None, _ => ⟨false, 1⟩
  | PairRestriction.InterMolecular, d => ⟨d.isSome, 1⟩

/-- All ordered pairs `(i, j)` with `i < j < n`, the iteration space of
the `for i in 0..natoms { for j in i+1..natoms { ... } }` loops. -/
def pairsUpto (n : ℕ) : List (ℕ × ℕ) :=
  (List.range n).flatMap fun i =>
    ((List.range n).drop (i + 1)).map fun j => (i, j)

/-- The iteration space of the triple k-space loops
`for ikx in 0..kmax { for iky ... { for ikz ... } } }`. -/
def triplesUpto (n : ℕ) : List (ℕ × ℕ × ℕ) :=
  (List.range n).flatMap fun a =>
    (List.range n).flatMap fun b =>
      (List.range n).map fun c => (a, b, c)

/-- The Ewald engine state, embedding `struct Ewald`. The `Array3`
caches are modelled as total functions on indices; the program only
reads them inside the `(kmax, kmax, kmax)` (resp. `(kmax, natoms, 3)`)
shape. -/
structure Ewald where
  alpha : ℚ
  rc : ℚ
  kmax : ℕ
  kmax2 : ℚ
  restriction : PairRestriction
  expfactors : ℕ → ℕ → ℕ → ℚ
  fourier_phases : ℕ → ℕ → ℕ → Complex
  rho : ℕ → ℕ → ℕ → Complex
  delta_rho : ℕ → ℕ → ℕ → Complex
  previous_cell : Option UnitCell

namespace Ewald

/-- Embedding of `Ewald::new(cutoff, kmax)`. -/
def new (fns : MathFns) (cutoff : ℚ) (kmax : ℕ) : Ewald where
  alpha := 3 * fns.pi / (cutoff * 4)
  rc := cutoff
  kmax := kmax
  kmax2 := 0
  restriction := PairRestriction.None
  expfactors := fun _ _ _ => 0
  fourier_phases := fun _ _ _ => 0
  rho := fun _ _ _ => 0
  delta_rho := fun _ _ _ => 0
  previous_cell := none

/-- Embedding of `Ewald::set_alpha`; the `assert!(alpha > 0.0)` is the
`none` branch. -/
def set_alpha (e : Ewald) (alpha : ℚ) : Option Ewald :=
  if 0 < alpha then some { e with alpha := alpha } else none

/-- Embedding of `Ewald::precompute(cell)`. Returns `none` on the two
`fatal_error!` branches (infinite and triclinic cells). The non-fatal
warning about a too-large real-space cutoff has no state effect and is
not modelled. -/
def precompute (fns : MathFns) (e : Ewald) (cell : UnitCell) :
    Option Ewald :=
  if e.previous_cell = some cell then
    -- Do not recompute
    some e
  else
    match cell.shape with
    | CellShape.Infinite => none
    | CellShape.Triclinic => none
    | CellShape.Orthorhombic =>
      let lengths := cell.lengths
      let max_length := max (max lengths.x lengths.y) lengths.z
      let k_rc := (e.kmax : ℚ) * (2 * fns.pi / max_length)
      let kmax2 := k_rc * k_rc
      let rec3 := cell.reciprocal_vectors fns
      some { e with
        previous_cell := some cell
        kmax2 := kmax2
        expfactors := fun ikx iky ikz =>
          -- the final `expfactors[(0, 0, 0)] = 0.0` assignment folded in
          if ikx = 0 ∧ iky = 0 ∧ ikz = 0 then 0
          else
            let k := (ikx : ℚ) • rec3.1 + (iky : ℚ) • rec3.2.1
                       + (ikz : ℚ) • rec3.2.2
            let k2 := k.norm2
            if k2 > kmax2 then 0
            else
              fns.exp (-k2 / (4 * e.alpha * e.alpha)) / k2
                * (if ikx ≠ 0 then 2 else 1)
                * (if iky ≠ 0 then 2 else 1)
                * (if ikz ≠ 0 then 2 else 1) }

/-- Embedding of `Ewald::real_space_energy_pair`; the
`assert_eq!(info.scaling, 1.0)` is the `none` branch. -/
def real_space_energy_pair (fns : MathFns) (e : Ewald)
    (info : RestrictionInfo) (qi qj r : ℚ) : Option ℚ :=
  if r > e.rc ∨ info.excluded then some 0
  else if info.scaling = 1 then
    some (qi * qj * fns.erfc (e.alpha * r) / r / ELCC)
  else none

/-- Embedding of `Ewald::real_space_force_pair` (it has no assertion). -/
def real_space_force_pair (fns : MathFns) (e : Ewald)
    (info : RestrictionInfo) (qi qj : ℚ) (rij : Vector3D) : Vector3D :=
  let r := fns.sqrt rij.norm2
  if r > e.rc ∨ info.excluded then 0
  else
    let factor := fns.erfc (e.alpha * r) / r
      + e.alpha * (2 / fns.sqrt fns.pi)
          * fns.exp (-e.alpha * e.alpha * r * r)
    (factor * (qi * qj / (r * r) / ELCC)) • rij

/-- Embedding of `Ewald::real_space_energy`. The source skips a whole
inner loop when `qi == 0`; this is flattened into a per-pair skip. -/
def real_space_energy (fns : MathFns) (e : Ewald) (s : System) :
    Option ℚ :=
  (pairsUpto s.size).foldlM
    (fun acc ij =>
      let qi := (s.particle ij.1).charge
      if qi = 0 then pure acc
      else
        let qj := (s.particle ij.2).charge
        if qj = 0 then pure acc
        else
          let info := e.restriction.information (s.bond_distance ij.1 ij.2)
          let r := s.distance fns ij.1 ij.2
          (e.real_space_energy_pair fns info qi qj r).map
            fun v => acc + v)
    0

/-- Point update of a force buffer, modelling `forces[i] += ...` on the
`&mut [Vector3D]` slice. -/
def updF (forces : ℕ → Vector3D) (i : ℕ) (v : Vector3D) : ℕ → Vector3D :=
  fun j => if j = i then v else forces j

/-- Embedding of `Ewald::real_space_forces`. -/
def real_space_forces (fns : MathFns) (e : Ewald) (s : System)
    (forces : ℕ → Vector3D) : ℕ → Vector3D :=
  (pairsUpto s.size).foldl
    (fun forces ij =>
      let qi := (s.particle ij.1).charge
      if qi = 0 then forces
      else
        let qj := (s.particle ij.2).charge
        if qj = 0 then forces
        else
          let info := e.restriction.information (s.bond_distance ij.1 ij.2)
          let rij := s.nearest_image ij.1 ij.2
          let force := e.real_space_force_pair fns info qi qj rij
          let f1 := updF forces ij.1 (forces ij.1 + force)
          updF f1 ij.2 (f1 ij.2 - force))
    forces

/-- Embedding of `Ewald::real_space_virial`. -/
def real_space_virial (fns : MathFns) (e : Ewald) (s : System) : Matrix3 :=
  (pairsUpto s.size).foldl
    (fun virial ij =>
      let qi := (s.particle ij.1).charge
      if qi = 0 then virial
      else
        let qj := (s.particle ij.2).charge
        if qj = 0 then virial
        else
          let info := e.restriction.information (s.bond_distance ij.1 ij.2)
          let rij := s.nearest_image ij.1 ij.2
          let force := e.real_space_force_pair fns info qi qj rij
          virial - force.tensorial rij)
    0

/-- Embedding of `Ewald::real_space_move_particles_cost`, including the
two slips of the source: the inner skip of the first loop tests
`qi == 0` a second time instead of `qj == 0`, and the second loop skips
`i + 1` entries of the enumeration (`i` the particle index) instead of
`idx + 1`. -/
def real_space_move_particles_cost (fns : MathFns) (e : Ewald)
    (s : System) (idxes : List ℕ) (newpos : List Vector3D) : Option ℚ := do
  -- interactions between a moved particle and a particle not moved
  let acc1 ← (idxes.enum.flatMap fun p =>
      (((List.range s.size).filter fun x => ¬ idxes.contains x).map
        fun j => (p.1, p.2, j))).foldlM
    (fun acc t =>
      let qi := (s.particle t.2.1).charge
      if qi = 0 then pure acc
      else
        let qj := (s.particle t.2.2).charge
        if qi = 0 then pure acc  -- source tests `qi` again here
        else
          let r_old := s.distance fns t.2.1 t.2.2
          let r_new := s.cell.distance fns (newpos.getD t.1 0)
            (s.particle t.2.2).position
          let info := e.restriction.information
            (s.bond_distance t.2.1 t.2.2)
          do
            let e_old ← e.real_space_energy_pair fns info qi qj r_old
            let e_new ← e.real_space_energy_pair fns info qi qj r_new
            pure (acc.1 + e_old, acc.2 + e_new))
    ((0 : ℚ), (0 : ℚ))
  -- interactions between two moved particles; `.drop (i + 1)` mirrors
  -- the source's `.skip(i + 1)` on the enumeration
  let acc2 ← (idxes.enum.flatMap fun p =>
      (idxes.enum.drop (p.2 + 1)).map fun q => (p.1, p.2, q.1, q.2)).foldlM
    (fun acc t =>
      let qi := (s.particle t.2.1).charge
      if qi = 0 then pure acc
      else
        let qj := (s.particle t.2.2.2).charge
        if qj = 0 then pure acc
        else
          let r_old := s.distance fns t.2.1 t.2.2.2
          let r_new := s.cell.distance fns (newpos.getD t.1 0)
            (newpos.getD t.2.2.1 0)
          let info := e.restriction.information
            (s.bond_distance t.2.1 t.2.2.2)
          do
            let e_old ← e.real_space_energy_pair fns info qi qj r_old
            let e_new ← e.real_space_energy_pair fns info qi qj r_new
            pure (acc.1 + e_old, acc.2 + e_new))
    acc1
  pure (acc2.2 - acc2.1)

/-- Embedding of `Ewald::self_energy`. -/
def self_energy (fns : MathFns) (e : Ewald) (s : System) : ℚ :=
  let q2 := ∑ i in Finset.range s.size,
    (s.particle i).charge * (s.particle i).charge;
  -e.alpha / fns.sqrt fns.pi * q2 / ELCC

/-- The phase recurrence of `density_fft` for one particle coordinate
`x = s_i_d`: `phases[0] = polar(1, 0)`, `phases[1] = polar(1, -2πx)`,
`phases[k] = phases[k-1] * phases[1]`. Each `(i, d)` slot of the phase
array evolves independently, so the three-dimensional array is the
pointwise image of this function. -/
def phaseRec (fns : MathFns) (x : ℚ) : ℕ → Complex
  | 0 => Complex.polar fns 1 0
  | 1 => Complex.polar fns 1 (-(2 * fns.pi * x))
  | (k + 2) => phaseRec fns x (k + 1) * phaseRec fns x 1

/-- The phase array built by `density_fft`:
`fourier_phases[(k, i, d)] = phaseRec (fractional position of i)_d k`. -/
def phasesOf (fns : MathFns) (s : System) : ℕ → ℕ → ℕ → Complex :=
  fun k i d =>
    phaseRec fns ((s.cell.fractional (s.particle i).position).nth d) k

/-- The product of the three phase factors of one particle at one
k-point, `Φ_p` in the spec. -/
def phi3 (fns : MathFns) (cell : UnitCell) (pos : Vector3D)
    (ikx iky ikz : ℕ) : Complex :=
  phaseRec fns ((cell.fractional pos).nth 0) ikx
    * phaseRec fns ((cell.fractional pos).nth 1) iky
    * phaseRec fns ((cell.fractional pos).nth 2) ikz

/-- The Fourier density written into `rho` by `density_fft`:
`ρ[k] = Σ_i qi · Φ_i(k)`. -/
def densityOf (fns : MathFns) (s : System) : ℕ → ℕ → ℕ → Complex :=
  fun ikx iky ikz =>
    ∑ j in Finset.range s.size,
      (s.particle j).charge • phi3 fns s.cell (s.particle j).position ikx iky ikz

/-- Embedding of `Ewald::density_fft`: rebuilds the phase array and the
density field from the system's current positions. -/
def density_fft (fns : MathFns) (e : Ewald) (s : System) : Ewald :=
  { e with fourier_phases := phasesOf fns s, rho := densityOf fns s }

/-- Embedding of `Ewald::kspace_energy`: runs `density_fft`, then sums
`expfactors * |ρ|²` over the stored octant, skipping entries whose
`expfactors` is below machine epsilon, and scales by
`2π / (V * ELCC)`. Returns the energy and the mutated state. -/
def kspace_energy (fns : MathFns) (e : Ewald) (s : System) : ℚ × Ewald :=
  let e1 := e.density_fft fns s
  let energy := ∑ t in (triplesUpto e1.kmax).toFinset,
    (if |e1.expfactors t.1 t.2.1 t.2.2| < EPSILON then 0
     else
       let density := Complex.norm fns (e1.rho t.1 t.2.1 t.2.2)
       e1.expfactors t.1 t.2.1 t.2.2 * density * density)
  (energy * (2 * fns.pi / (s.cell.volume * ELCC)), e1)

/-- Embedding of `Ewald::kspace_force_factor`. -/
def kspace_force_factor (e : Ewald) (j ikx iky ikz : ℕ)
    (qi qj fourier_i : ℚ) : ℚ :=
  let fourier_j := (e.fourier_phases ikx j 0 * e.fourier_phases iky j 1
    * e.fourier_phases ikz j 2).im
  qi * qj * (fourier_i - fourier_j)

/-- Embedding of `Ewald::kspace_forces`. -/
def kspace_forces (fns : MathFns) (e : Ewald) (s : System)
    (forces : ℕ → Vector3D) : (ℕ → Vector3D) × Ewald :=
  let e1 := e.density_fft fns s
  let factor := 4 * fns.pi / (s.cell.volume * ELCC)
  let rec3 := s.cell.reciprocal_vectors fns
  let result := (triplesUpto e1.kmax).foldl
    (fun forces t =>
      let expfactor := |e1.expfactors t.1 t.2.1 t.2.2|
      if expfactor < EPSILON then forces
      else
        let f := expfactor * factor
        let k := (t.1 : ℚ) • rec3.1 + (t.2.1 : ℚ) • rec3.2.1
          + (t.2.2 : ℚ) • rec3.2.2
        (List.range s.size).foldl
          (fun forces i =>
            let qi := (s.particle i).charge
            let fourier_i := (e1.fourier_phases t.1 i 0
              * e1.fourier_phases t.2.1 i 1
              * e1.fourier_phases t.2.2 i 2).im
            let inner := ((List.range s.size).drop (i + 1)).foldl
              (fun (p : (ℕ → Vector3D) × Vector3D) j =>
                let qj := (s.particle j).charge
                let force := (f * e1.kspace_force_factor j t.1 t.2.1 t.2.2
                  qi qj fourier_i) • k
                (updF p.1 j (p.1 j + force), p.2 - force))
              (forces, 0)
            updF inner.1 i (inner.1 i + inner.2))
          forces)
    forces
  (result, e1)

/-- Embedding of `Ewald::kspace_virial`. The parallel map-sum over
k-points and particles is modelled as a plain sum. Note the source
compares the raw `expfactor` (not its absolute value) with epsilon
here. -/
def kspace_virial (fns : MathFns) (e : Ewald) (s : System) :
    Matrix3 × Ewald :=
  let e1 := e.density_fft fns s
  let factor := 4 * fns.pi / (s.cell.volume * ELCC)
  let rec3 := s.cell.reciprocal_vectors fns
  let virial := ∑ t in (triplesUpto e1.kmax).toFinset,
    (if e1.expfactors t.1 t.2.1 t.2.2 < EPSILON then 0
     else
       let f := e1.expfactors t.1 t.2.1 t.2.2 * factor
       let k := (t.1 : ℚ) • rec3.1 + (t.2.1 : ℚ) • rec3.2.1
         + (t.2.2 : ℚ) • rec3.2.2
       ∑ i in Finset.range s.size,
         ((((List.range s.size).drop (i + 1)).map fun j =>
           let qi := (s.particle i).charge
           let qj := (s.particle j).charge
           let fourier_i := (e1.fourier_phases t.1 i 0
             * e1.fourier_phases t.2.1 i 1
             * e1.fourier_phases t.2.2 i 2).im
           let force := (f * e1.kspace_force_factor j t.1 t.2.1 t.2.2
             qi qj fourier_i) • k
           force.tensorial (s.nearest_image i j)).sum))
  (virial, e1)

/-- The Fourier-space change of `rho` induced by moving particles
`idxes` to `newpos`, as accumulated by
`compute_delta_rho_move_particles`:
`Δρ[k] = Σ_idx q_{idxes[idx]} · (Φ_new(idx, k) − Φ_old(idx, k))`.
The source enumerates `idx` alongside `idxes`; with equal lengths that
enumeration is the `zip` used here. -/
def deltaRhoOf (fns : MathFns) (s : System) (idxes : List ℕ)
    (newpos : List Vector3D) : ℕ → ℕ → ℕ → Complex :=
  fun ikx iky ikz =>
    ((idxes.zip newpos).map fun p =>
      (s.particle p.1).charge •
        (phi3 fns s.cell p.2 ikx iky ikz
          - phi3 fns s.cell (s.particle p.1).position ikx iky ikz)).sum

/-- Embedding of `Ewald::compute_delta_rho_move_particles`: fills
`delta_rho` (the old and new auxiliary phase arrays are local to the
source function and are not part of the state). -/
def compute_delta_rho_move_particles (fns : MathFns) (e : Ewald)
    (s : System) (idxes : List ℕ) (newpos : List Vector3D) : Ewald :=
  { e with delta_rho := deltaRhoOf fns s idxes newpos }

/-- Embedding of `Ewald::kspace_move_particles_cost`. -/
def kspace_move_particles_cost (fns : MathFns) (e : Ewald) (s : System)
    (idxes : List ℕ) (newpos : List Vector3D) : ℚ × Ewald :=
  let old := e.kspace_energy fns s
  let e2 := old.2.compute_delta_rho_move_particles fns s idxes newpos
  let e_new := ∑ t in (triplesUpto e2.kmax).toFinset,
    (if |e2.expfactors t.1 t.2.1 t.2.2| < EPSILON then 0
     else
       let rho := e2.rho t.1 t.2.1 t.2.2 + e2.delta_rho t.1 t.2.1 t.2.2
       let density := Complex.norm fns rho
       e2.expfactors t.1 t.2.1 t.2.2 * density * density)
  (e_new * (2 * fns.pi / (s.cell.volume * ELCC)) - old.1, e2)

/-- Embedding of `Ewald::molcorrect_energy_pair`; the three assertions
(excluded pair, unit scaling, distance below the cutoff) are the `none`
branches. -/
def molcorrect_energy_pair (fns : MathFns) (e : Ewald)
    (info : RestrictionInfo) (qi qj r : ℚ) : Option ℚ :=
  if info.excluded then
    if info.scaling = 1 then
      if r < e.rc then
        some (-qi * qj / ELCC * fns.erf (e.alpha * r) / r)
      else none
    else none
  else none

/-- Embedding of `Ewald::molcorrect_force_pair`. -/
def molcorrect_force_pair (fns : MathFns) (e : Ewald)
    (info : RestrictionInfo) (qi qj : ℚ) (rij : Vector3D) :
    Option Vector3D :=
  if info.excluded then
    if info.scaling = 1 then
      let r := fns.sqrt rij.norm2
      if r < e.rc then
        let qiqj := qi * qj / (ELCC * r * r)
        let factor := qiqj * (2 * e.alpha / fns.sqrt fns.pi
          * fns.exp (-e.alpha * e.alpha * r * r)
          - fns.erf (e.alpha * r) / r)
        some (factor • rij)
      else none
    else none
  else none

/-- Embedding of `Ewald::molcorrect_energy` (only excluded, charged
pairs contribute; the outer-loop charge skip is flattened per pair). -/
def molcorrect_energy (fns : MathFns) (e : Ewald) (s : System) :
    Option ℚ :=
  (pairsUpto s.size).foldlM
    (fun acc ij =>
      let qi := (s.particle ij.1).charge
      if qi = 0 then pure acc
      else
        let info := e.restriction.information (s.bond_distance ij.1 ij.2)
        if ¬ info.excluded then pure acc
        else
          let qj := (s.particle ij.2).charge
          if qj = 0 then pure acc
          else
            let r := s.distance fns ij.1 ij.2
            (e.molcorrect_energy_pair fns info qi qj r).map
              fun v => acc + v)
    0

/-- Embedding of `Ewald::molcorrect_forces`. -/
def molcorrect_forces (fns : MathFns) (e : Ewald) (s : System)
    (forces : ℕ → Vector3D) : Option (ℕ → Vector3D) :=
  (pairsUpto s.size).foldlM
    (fun forces ij =>
      let qi := (s.particle ij.1).charge
      if qi = 0 then pure forces
      else
        let info := e.restriction.information (s.bond_distance ij.1 ij.2)
        if ¬ info.excluded then pure forces
        else
          let qj := (s.particle ij.2).charge
          if qj = 0 then pure forces
          else
            let rij := s.nearest_image ij.1 ij.2
            (e.molcorrect_force_pair fns info qi qj rij).map fun force =>
              let f1 := updF forces ij.1 (forces ij.1 + force)
              updF f1 ij.2 (f1 ij.2 - force))
    forces

/-- Embedding of `Ewald::molcorrect_virial`. -/
def molcorrect_virial (fns : MathFns) (e : Ewald) (s : System) :
    Option Matrix3 :=
  (pairsUpto s.size).foldlM
    (fun virial ij =>
      let qi := (s.particle ij.1).charge
      if qi = 0 then pure virial
      else
        let info := e.restriction.information (s.bond_distance ij.1 ij.2)
        if ¬ info.excluded then pure virial
        else
          let qj := (s.particle ij.2).charge
          if qj = 0 then pure virial
          else
            let rij := s.nearest_image ij.1 ij.2
            (e.molcorrect_force_pair fns info qi qj rij).map fun force =>
              virial - force.tensorial rij)
    0

/-- Embedding of `Ewald::molcorrect_move_particles_cost`, again with the
two slips of the source (see `real_space_move_particles_cost`). -/
def molcorrect_move_particles_cost (fns : MathFns) (e : Ewald)
    (s : System) (idxes : List ℕ) (newpos : List Vector3D) : Option ℚ := do
  let acc1 ← (idxes.enum.flatMap fun p =>
      (((List.range s.size).filter fun x => ¬ idxes.contains x).map
        fun j => (p.1, p.2, j))).foldlM
    (fun acc t =>
      let qi := (s.particle t.2.1).charge
      if qi = 0 then pure acc
      else
        let qj := (s.particle t.2.2).charge
        if qi = 0 then pure acc  -- source tests `qi` again here
        else
          let info := e.restriction.information
            (s.bond_distance t.2.1 t.2.2)
          if ¬ info.excluded then pure acc
          else
            let r_old := s.distance fns t.2.1 t.2.2
            let r_new := s.cell.distance fns (newpos.getD t.1 0)
              (s.particle t.2.2).position
            do
              let e_old ← e.molcorrect_energy_pair fns info qi qj r_old
              let e_new ← e.molcorrect_energy_pair fns info qi qj r_new
              pure (acc.1 + e_old, acc.2 + e_new))
    ((0 : ℚ), (0 : ℚ))
  let acc2 ← (idxes.enum.flatMap fun p =>
      (idxes.enum.drop (p.2 + 1)).map fun q => (p.1, p.2, q.1, q.2)).foldlM
    (fun acc t =>
      let qi := (s.particle t.2.1).charge
      if qi = 0 then pure acc
      else
        let qj := (s.particle t.2.2.2).charge
        if qj = 0 then pure acc
        else
          let info := e.restriction.information
            (s.bond_distance t.2.1 t.2.2.2)
          if ¬ info.excluded then pure acc
          else
            let r_old := s.distance fns t.2.1 t.2.2.2
            let r_new := s.cell.distance fns (newpos.getD t.1 0)
              (newpos.getD t.2.2.1 0)
            do
              let e_old ← e.molcorrect_energy_pair fns info qi qj r_old
              let e_new ← e.molcorrect_energy_pair fns info qi qj r_new
              pure (acc.1 + e_old, acc.2 + e_new))
    acc1
  pure (acc2.2 - acc2.1)

end Ewald

/- The `SharedEwald` wrapper. The read-write lock wrapping is
transparent in a sequential model: each entry point is a function of the
inner `Ewald` state, returning its result together with the state left
inside the wrapper. -/
namespace SharedEwald

/-- Embedding of `GlobalPotential::cutoff` for `SharedEwald`. -/
def cutoff (e : Ewald) : Option ℚ := some e.rc

/-- Embedding of `GlobalPotential::energy` for `SharedEwald`. -/
def energy (fns : MathFns) (e : Ewald) (s : System) :
    Option (ℚ × Ewald) := do
  let e1 ← e.precompute fns s.cell
  let real ← e1.real_space_energy fns s
  let self_e := e1.self_energy fns s
  let kspace := e1.kspace_energy fns s
  let molecular ← kspace.2.molcorrect_energy fns s
  pure (real + self_e + kspace.1 + molecular, kspace.2)

/-- Embedding of `GlobalPotential::forces` for `SharedEwald`. -/
def forces (fns : MathFns) (e : Ewald) (s : System) :
    Option ((ℕ → Vector3D) × Ewald) := do
  let e1 ← e.precompute fns s.cell
  let f1 := e1.real_space_forces fns s (fun _ => 0)
  -- no self force
  let kspace := e1.kspace_forces fns s f1
  let f3 ← kspace.2.molcorrect_forces fns s kspace.1
  pure (f3, kspace.2)

/-- Embedding of `GlobalPotential::virial` for `SharedEwald`. -/
def virial (fns : MathFns) (e : Ewald) (s : System) :
    Option (Matrix3 × Ewald) := do
  let e1 ← e.precompute fns s.cell
  let real := e1.real_space_virial fns s
  -- no self virial
  let kspace := e1.kspace_virial fns s
  let molecular ← kspace.2.molcorrect_virial fns s
  pure (real + kspace.1 + molecular, kspace.2)

/-- Embedding of `CoulombicPotential::set_restriction` for
`SharedEwald`. -/
def set_restriction (e : Ewald) (restriction : PairRestriction) : Ewald :=
  { e with restriction := restriction }

/-- Embedding of `GlobalCache::move_particles_cost` for `SharedEwald`. -/
def move_particles_cost (fns : MathFns) (e : Ewald) (s : System)
    (idxes : List ℕ) (newpos : List Vector3D) : Option (ℚ × Ewald) := do
  let e1 ← e.precompute fns s.cell
  let real ← e1.real_space_move_particles_cost fns s idxes newpos
  -- no self cost
  let kspace := e1.kspace_move_particles_cost fns s idxes newpos
  let molecular ← kspace.2.molcorrect_move_particles_cost fns s idxes newpos
  pure (real + kspace.1 + molecular, kspace.2)

/-- Embedding of `GlobalCache::update` for `SharedEwald`: folds
`delta_rho` into `rho` over the `(kmax, kmax, kmax)` octant. In the
function model of the arrays the addition is applied pointwise. -/
def update (e : Ewald) : Ewald :=
  { e with rho := fun ikx iky ikz =>
      e.rho ikx iky ikz + e.delta_rho ikx iky ikz }

end SharedEwald

/-- The system with the position of particle `i` replaced by `x`
(charges and everything else unchanged). -/
def System.set_position (s : System) (i : ℕ) (x : Vector3D) : System :=
  { s with particles :=
      s.particles.set i { s.particle i with position := x } }

/-- Modelled from the spec: "S' is S with the particles of I moved to
X" — each listed particle's position is replaced by the corresponding
new position. -/
def System.move_particles (s : System) (idxes : List ℕ)
    (newpos : List Vector3D) : System :=
  (idxes.zip newpos).foldl (fun t p => t.set_position p.1 p.2) s

/-- The operations a driver can perform on one engine instance after
construction. -/
inductive Op where
  | setAlpha (alpha : ℚ)
  | setRestriction (restriction : PairRestriction)
  | precompute (cell : UnitCell)
  | densityFft (s : System)
  | energy (s : System)
  | forces (s : System)
  | virial (s : System)
  | moveCost (s : System) (idxes : List ℕ) (newpos : List Vector3D)
  | update

/-- One driver step: the state left in the engine by the operation, or
`none` when the operation aborts fatally. -/
def step (fns : MathFns) (e : Ewald) : Op → Option Ewald
  | Op.setAlpha a => e.set_alpha a
  | Op.setRestriction r => some (SharedEwald.set_restriction e r)
  | Op.precompute c => e.precompute fns c
  | Op.densityFft s =>
      -- `SharedEwald::density_fft` precomputes, then rebuilds the caches
      (e.precompute fns s.cell).map fun e1 => e1.density_fft fns s
  | Op.energy s => (SharedEwald.energy fns e s).map Prod.snd
  | Op.forces s => (SharedEwald.forces fns e s).map Prod.snd
  | Op.virial s => (SharedEwald.virial fns e s).map Prod.snd
  | Op.moveCost s idxes newpos =>
      (SharedEwald.move_particles_cost fns e s idxes newpos).map Prod.snd
  | Op.update => some (SharedEwald.update e)

/-- Run a sequence of driver operations from a state. -/
def runOps (fns : MathFns) (e : Ewald) (ops : List Op) : Option Ewald :=
  ops.foldlM (step fns) e

/-- The reachable-state invariant that `previous_cell`, when set, only
ever holds a cell that passed the shape check. -/
def prevCellOk (e : Ewald) : Prop :=
  ∀ c, e.previous_cell = some c → c.shape = CellShape.Orthorhombic

/-- A concrete instantiation of the math-library interface, used to
evaluate the model on explicit inputs. -/
def fns0 : MathFns where
  pi := 3
  exp := id
  sqrt := id
  erf := fun _ => 1
  erfc := fun _ => 1
  cos := fun _ => 1
  sin := fun _ => 0
  pi_pos := by norm_num
  sqrt_zero := rfl
  cos_zero := rfl
  sin_zero := rfl

/-- A cubic cell of side 20, as in the source's own test systems. -/
def cell20 : UnitCell := UnitCell.cubic 20

/-- A triclinic cell, as in the source's rejection test. -/
def cellTri : UnitCell := ⟨CellShape.Triclinic, ⟨10, 10, 10⟩⟩

/-- A three-particle system: an uncharged particle plus two unit
charges. Exercises trial moves of the non-prefix index set `[1, 2]`. -/
def s3 : System where
  cell := cell20
  particles :=
    [⟨0, ⟨5, 5, 5⟩⟩, ⟨1, ⟨0, 0, 0⟩⟩, ⟨1, ⟨1, 0, 0⟩⟩]
  bond_distance := fun _ _ => none

/-- Proposed new positions for particles 1 and 2 of `s3`. -/
def np3 : List Vector3D := [⟨0, 0, 0⟩, ⟨2, 0, 0⟩]

/-- A two-particle ±1 system used as a small concrete witness system. -/
def s2 : System where
  cell := cell20
  particles := [⟨1, ⟨0, 0, 0⟩⟩, ⟨-1, ⟨1, 1, 0⟩⟩]
  bond_distance := fun _ _ => none

/-- A one-particle chargeless system over the cubic cell. -/
def s1z : System where
  cell := cell20
  particles := [⟨0, ⟨1, 2, 3⟩⟩]
  bond_distance := fun _ _ => none

/-!  Shared helper lemmas about the state effect of each operation.  -/

/-- A successful `precompute` leaves every field except `kmax2`,
`expfactors` and `previous_cell` unchanged, and records the cell. -/
theorem precompute_state {fns : MathFns} {e : Ewald} {c : UnitCell}
    {e2 : Ewald} (h : e.precompute fns c = some e2) :
    e2.alpha = e.alpha ∧ e2.rc = e.rc ∧ e2.kmax = e.kmax
    ∧ e2.restriction = e.restriction ∧ e2.rho = e.rho
    ∧ e2.delta_rho = e.delta_rho ∧ e2.fourier_phases = e.fourier_phases
    ∧ e2.previous_cell = some c := by
  unfold Ewald.precompute at h
  by_cases hp : e.previous_cell = some c
  · rw [if_pos hp] at h
    cases h
    exact ⟨rfl, rfl, rfl, rfl, rfl, rfl, rfl, hp⟩
  · rw [if_neg hp] at h
    cases hs : c.shape <;> rw [hs] at h
    · exact Option.noConfusion h
    · cases h
      exact ⟨rfl, rfl, rfl, rfl, rfl, rfl, rfl, rfl⟩
    · exact Option.noConfusion h

/-- On a state whose recorded cell (if any) passed the shape check, a
successful `precompute` implies the cell is orthorhombic. -/
theorem precompute_ok_shape {fns : MathFns} {e : Ewald} {c : UnitCell}
    {e2 : Ewald} (hok : prevCellOk e) (h : e.precompute fns c = some e2) :
    c.shape = CellShape.Orthorhombic := by
  unfold Ewald.precompute at h
  by_cases hp : e.previous_cell = some c
  · exact hok c hp
  · rw [if_neg hp] at h
    by_cases hs : c.shape = CellShape.Orthorhombic
    · exact hs
    · exfalso
      cases hcs : c.shape <;> rw [hcs] at h
      · exact Option.noConfusion h
      · exact hs hcs
      · exact Option.noConfusion h

/-- `prevCellOk` only depends on the `previous_cell` field. -/
theorem prevCellOk_congr (e e2 : Ewald)
    (h : e2.previous_cell = e.previous_cell) (hok : prevCellOk e) :
    prevCellOk e2 := fun c hc => hok c (h ▸ hc)

/-- A successful `precompute` preserves `prevCellOk`. -/
theorem precompute_prevCellOk {fns : MathFns} {e : Ewald} {c : UnitCell}
    {e2 : Ewald} (hok : prevCellOk e) (h : e.precompute fns c = some e2) :
    prevCellOk e2 := by
  intro d hd
  rw [(precompute_state h).2.2.2.2.2.2.2] at hd
  cases hd
  exact precompute_ok_shape hok h

/-- `precompute` aborts on a non-orthorhombic cell whenever the state
satisfies `prevCellOk`. -/
theorem precompute_fail {fns : MathFns} {e : Ewald} {c : UnitCell}
    (hok : prevCellOk e) (hsh : c.shape ≠ CellShape.Orthorhombic) :
    e.precompute fns c = none := by
  unfold Ewald.precompute
  have hp : ¬ e.previous_cell = some c := fun hp => hsh (hok c hp)
  rw [if_neg hp]
  cases hs : c.shape
  · rfl
  · exact absurd hs hsh
  · rfl

/-- `density_fft` rewrites only `fourier_phases` and `rho`. -/
theorem density_fft_state (fns : MathFns) (e : Ewald) (s : System) :
    (e.density_fft fns s).alpha = e.alpha
    ∧ (e.density_fft fns s).previous_cell = e.previous_cell
    ∧ (e.density_fft fns s).rho = Ewald.densityOf fns s :=
  ⟨rfl, rfl, rfl⟩

/-- The state left by a successful `energy` call: it is the
`density_fft` image of the precomputed state. -/
theorem energy_state {fns : MathFns} {e : Ewald} {s : System}
    {p : ℚ × Ewald} (h : SharedEwald.energy fns e s = some p) :
    ∃ e1, e.precompute fns s.cell = some e1
      ∧ p.2 = e1.density_fft fns s := by
  unfold SharedEwald.energy at h
  cases hp : e.precompute fns s.cell with
  | none => rw [hp] at h; exact Option.noConfusion h
  | some e1 =>
    rw [hp] at h
    simp only [Option.bind_eq_bind, Option.some_bind] at h
    obtain ⟨real, hr, h⟩ := Option.bind_eq_some.mp h
    obtain ⟨mol, hm, h⟩ := Option.bind_eq_some.mp h
    cases h
    exact ⟨e1, rfl, rfl⟩

/-- The state left by a successful `forces` call. -/
theorem forces_state {fns : MathFns} {e : Ewald} {s : System}
    {p : (ℕ → Vector3D) × Ewald} (h : SharedEwald.forces fns e s = some p) :
    ∃ e1, e.precompute fns s.cell = some e1
      ∧ p.2 = e1.density_fft fns s := by
  unfold SharedEwald.forces at h
  cases hp : e.precompute fns s.cell with
  | none => rw [hp] at h; exact Option.noConfusion h
  | some e1 =>
    rw [hp] at h
    simp only [Option.bind_eq_bind, Option.some_bind] at h
    obtain ⟨f3, hf, h⟩ := Option.bind_eq_some.mp h
    cases h
    exact ⟨e1, rfl, rfl⟩

/-- The state left by a successful `virial` call. -/
theorem virial_state {fns : MathFns} {e : Ewald} {s : System}
    {p : Matrix3 × Ewald} (h : SharedEwald.virial fns e s = some p) :
    ∃ e1, e.precompute fns s.cell = some e1
      ∧ p.2 = e1.density_fft fns s := by
  unfold SharedEwald.virial at h
  cases hp : e.precompute fns s.cell with
  | none => rw [hp] at h; exact Option.noConfusion h
  | some e1 =>
    rw [hp] at h
    simp only [Option.bind_eq_bind, Option.some_bind] at h
    obtain ⟨mol, hm, h⟩ := Option.bind_eq_some.mp h
    cases h
    exact ⟨e1, rfl, rfl⟩

/-- The state left by a successful `move_particles_cost` call: the
`density_fft` image of the precomputed state, with `delta_rho` filled by
`compute_delta_rho_move_particles`. -/
theorem move_cost_state {fns : MathFns} {e : Ewald} {s : System}
    {idxes : List ℕ} {newpos : List Vector3D} {p : ℚ × Ewald}
    (h : SharedEwald.move_particles_cost fns e s idxes newpos = some p) :
    ∃ e1, e.precompute fns s.cell = some e1
      ∧ p.2 = (e1.density_fft fns s).compute_delta_rho_move_particles
          fns s idxes newpos := by
  unfold SharedEwald.move_particles_cost at h
  cases hp : e.precompute fns s.cell with
  | none => rw [hp] at h; exact Option.noConfusion h
  | some e1 =>
    rw [hp] at h
    simp only [Option.bind_eq_bind, Option.some_bind] at h
    obtain ⟨real, hr, h⟩ := Option.bind_eq_some.mp h
    obtain ⟨mol, hm, h⟩ := Option.bind_eq_some.mp h
    cases h
    exact ⟨e1, rfl, rfl⟩

/-- Every driver step preserves the shape invariant on
`previous_cell`. -/
theorem step_prevCellOk {fns : MathFns} {e : Ewald} {op : Op} {e2 : Ewald}
    (hok : prevCellOk e) (h : step fns e op = some e2) : prevCellOk e2 := by
  cases op with
  | setAlpha a =>
    simp only [step] at h
    unfold Ewald.set_alpha at h
    split_ifs at h
    cases h
    exact prevCellOk_congr _ e rfl hok
  | setRestriction r =>
    cases h
    exact prevCellOk_congr _ e rfl hok
  | precompute c => exact precompute_prevCellOk hok h
  | densityFft s =>
    simp only [step] at h
    obtain ⟨e1, hp, he2⟩ := Option.map_eq_some'.mp h
    cases he2
    exact prevCellOk_congr _ e1 rfl (precompute_prevCellOk hok hp)
  | energy s =>
    simp only [step] at h
    obtain ⟨p, hp, he2⟩ := Option.map_eq_some'.mp h
    obtain ⟨e1, hpre, hst⟩ := energy_state hp
    cases he2
    rw [hst]
    exact prevCellOk_congr _ e1 rfl (precompute_prevCellOk hok hpre)
  | forces s =>
    simp only [step] at h
    obtain ⟨p, hp, he2⟩ := Option.map_eq_some'.mp h
    obtain ⟨e1, hpre, hst⟩ := forces_state hp
    cases he2
    rw [hst]
    exact prevCellOk_congr _ e1 rfl (precompute_prevCellOk hok hpre)
  | virial s =>
    simp only [step] at h
    obtain ⟨p, hp, he2⟩ := Option.map_eq_some'.mp h
    obtain ⟨e1, hpre, hst⟩ := virial_state hp
    cases he2
    rw [hst]
    exact prevCellOk_congr _ e1 rfl (precompute_prevCellOk hok hpre)
  | moveCost s idxes newpos =>
    simp only [step] at h
    obtain ⟨p, hp, he2⟩ := Option.map_eq_some'.mp h
    obtain ⟨e1, hpre, hst⟩ := move_cost_state hp
    cases he2
    rw [hst]
    exact prevCellOk_congr _ e1 rfl (precompute_prevCellOk hok hpre)
  | update =>
    cases h
    exact prevCellOk_congr _ e rfl hok

/-- Any state reachable by driver operations from a state satisfying the
shape invariant still satisfies it. -/
theorem runOps_prevCellOk {fns : MathFns} :
    ∀ (ops : List Op) (e e2 : Ewald), prevCellOk e →
      runOps fns e ops = some e2 → prevCellOk e2 := by
  intro ops
  induction ops with
  | nil =>
    intro e e2 h0 hr
    cases hr
    exact h0
  | cons op rest ih =>
    intro e e2 h0 hr
    unfold runOps at hr
    rw [List.foldlM_cons] at hr
    obtain ⟨e1, h1, h2⟩ := Option.bind_eq_some.mp hr
    exact ih e1 e2 (step_prevCellOk h0 h1) h2

/-!  Theorems about the claims.  -/

/-- C1: the trial-move cost does NOT equal the energy difference for an
index set that is not a prefix of `0..n`. On the three-particle system
`s3` (charges 0, 1, 1) with the moved set `I = [1, 2]`, the source's
`.skip(i + 1)` (with `i` the particle index rather than the enumeration
position) drops the moved-moved pair `(1, 2)` from both sides of the
real-space delta, so the real-space cost — and with it the total cost —
is `0`, while the true energy difference is
`1/(4·ELCC) − 1/ELCC ≠ 0`. Evaluated with the concrete math-function
bundle `fns0`. -/
theorem c1_move_cost_drops_moved_pairs :
    Ewald.real_space_move_particles_cost fns0 (Ewald.new fns0 8 1) s3 [1, 2] np3
      = some 0
  ∧ Ewald.real_space_energy fns0 (Ewald.new fns0 8 1) s3 = some (1 / ELCC)
  ∧ Ewald.real_space_energy fns0 (Ewald.new fns0 8 1)
      (s3.move_particles [1, 2] np3) = some (1 / (4 * ELCC))
  ∧ (1 / (4 * ELCC) - 1 / ELCC : ℚ) ≠ 0
  ∧ (SharedEwald.move_particles_cost fns0 (Ewald.new fns0 8 1) s3 [1, 2] np3).map
      Prod.fst = some 0
  ∧ ((SharedEwald.energy fns0 (Ewald.new fns0 8 1)
        (s3.move_particles [1, 2] np3)).map Prod.fst).bind
      (fun a => ((SharedEwald.energy fns0 (Ewald.new fns0 8 1) s3).map
        Prod.fst).map fun b => a - b)
      ≠ (SharedEwald.move_particles_cost fns0 (Ewald.new fns0 8 1) s3 [1, 2] np3).map
          Prod.fst :=
  ⟨by with_unfolding_all rfl, by with_unfolding_all rfl,
   by with_unfolding_all rfl, by with_unfolding_all decide,
   by with_unfolding_all rfl, by with_unfolding_all decide⟩

/-- C4: the molecular-correction pair kernel aborts exactly when the
pair is not excluded, or its scaling is not 1, or `r ≥ rc`; on an
excluded pair with scaling 1 at `r < rc` it returns
`−qi·qj·erf(α·r) / (r·ELCC)` without aborting. -/
theorem c4_molcorrect_energy_pair_spec (fns : MathFns) (e : Ewald)
    (info : RestrictionInfo) (qi qj r : ℚ) :
    (e.molcorrect_energy_pair fns info qi qj r = none ↔
      ¬ info.excluded = true ∨ info.scaling ≠ 1 ∨ r ≥ e.rc)
  ∧ (info.excluded = true → info.scaling = 1 → r < e.rc →
      e.molcorrect_energy_pair fns info qi qj r
        = some (-(qi * qj * fns.erf (e.alpha * r)) / (r * ELCC))) := by
  unfold Ewald.molcorrect_energy_pair
  constructor
  · split_ifs with h1 h2 h3 <;> simp_all [not_lt, ge_iff_le]
  · intro h1 h2 h3
    simp only [h1, h2, if_pos, if_true, h3]
    congr 1
    ring

/-- Closed witness for `c4_molcorrect_energy_pair_spec`, at an excluded
unit-charge pair at distance 2 with cutoff 8. -/
theorem c4_molcorrect_energy_pair_spec_witness :
    Ewald.molcorrect_energy_pair fns0 (Ewald.new fns0 8 2) ⟨true, 1⟩ 1 1 2
      = some (-(1 * 1 * fns0.erf ((Ewald.new fns0 8 2).alpha * 2)) / (2 * ELCC)) :=
  (c4_molcorrect_energy_pair_spec fns0 (Ewald.new fns0 8 2) ⟨true, 1⟩ 1 1 2).2
    rfl rfl (by with_unfolding_all decide)

/-- C5: the real-space pair kernel returns exactly 0 whenever `r > rc`
or the pair is excluded; otherwise with scaling 1 it returns
`qi·qj·erfc(α·r)/(r·ELCC)` where `ELCC` is the source literal
`7.197589831304046`; and a non-excluded in-range pair with scaling ≠ 1
aborts. -/
theorem c5_real_space_energy_pair_spec (fns : MathFns) (e : Ewald)
    (info : RestrictionInfo) (qi qj r : ℚ) :
    (r > e.rc ∨ info.excluded = true →
      e.real_space_energy_pair fns info qi qj r = some 0)
  ∧ (¬ (r > e.rc ∨ info.excluded = true) → info.scaling = 1 →
      e.real_space_energy_pair fns info qi qj r
        = some (qi * qj * fns.erfc (e.alpha * r) / (r * ELCC)))
  ∧ (¬ (r > e.rc ∨ info.excluded = true) → info.scaling ≠ 1 →
      e.real_space_energy_pair fns info qi qj r = none)
  ∧ ELCC = 7.197589831304046 := by
  unfold Ewald.real_space_energy_pair
  refine ⟨fun h => by simp [h], fun h hs => ?_, fun h hs => by simp [h, hs], rfl⟩
  simp only [if_neg h, if_pos hs, div_div]

/-- Closed witness for `c5_real_space_energy_pair_spec`, at a
non-excluded unit-charge pair at distance 2 with cutoff 8. -/
theorem c5_real_space_energy_pair_spec_witness :
    Ewald.real_space_energy_pair fns0 (Ewald.new fns0 8 2) ⟨false, 1⟩ 1 1 2
      = some (1 * 1 * fns0.erfc ((Ewald.new fns0 8 2).alpha * 2) / (2 * ELCC)) :=
  (c5_real_space_energy_pair_spec fns0 (Ewald.new fns0 8 2) ⟨false, 1⟩ 1 1 2).2.1
    (by with_unfolding_all decide) rfl

/-- C7: `precompute` is idempotent in the cell: running it a second time
with the same cell returns the state of the first run unchanged, and a
call whose cell equals `previous_cell` is a no-op returning the state
untouched. -/
theorem c7_precompute_idempotent (fns : MathFns) (e : Ewald) (c : UnitCell) :
    ((e.precompute fns c).bind fun e2 => e2.precompute fns c)
      = e.precompute fns c
  ∧ (e.previous_cell = some c → e.precompute fns c = some e) := by
  constructor
  · by_cases h : e.previous_cell = some c
    · simp [Ewald.precompute, h]
    · unfold Ewald.precompute
      simp only [if_neg h]
      cases hs : c.shape <;> simp
  · intro h
    simp [Ewald.precompute, h]

/-- Closed witness for `c7_precompute_idempotent`: a state whose
`previous_cell` is the cubic cell is left untouched by `precompute` on
that cell. -/
theorem c7_precompute_idempotent_witness :
    Ewald.precompute fns0
        { Ewald.new fns0 8 2 with previous_cell := some cell20 } cell20
      = some { Ewald.new fns0 8 2 with previous_cell := some cell20 } :=
  (c7_precompute_idempotent fns0
    { Ewald.new fns0 8 2 with previous_cell := some cell20 } cell20).2 rfl

/-- C3, corrected: of the wrapper's entry points, exactly the four that
take a system — `energy`, `forces`, `virial`, `move_particles_cost` —
run `precompute(system.cell)` before any other work, so any successful
call leaves `previous_cell = some system.cell`; `cutoff` is a pure read
of `rc`, and `set_restriction` and `update` take no system and perform
no precompute (they leave `previous_cell`, `kmax2` and `expfactors`
untouched). -/
theorem c3_entry_points_precompute (fns : MathFns) (e : Ewald)
    (s : System) (r : PairRestriction) (idxes : List ℕ)
    (newpos : List Vector3D) :
    ((SharedEwald.energy fns e s).map (fun p => p.2.previous_cell)
        = some (some s.cell) ∨ SharedEwald.energy fns e s = none)
  ∧ ((SharedEwald.forces fns e s).map (fun p => p.2.previous_cell)
        = some (some s.cell) ∨ SharedEwald.forces fns e s = none)
  ∧ ((SharedEwald.virial fns e s).map (fun p => p.2.previous_cell)
        = some (some s.cell) ∨ SharedEwald.virial fns e s = none)
  ∧ ((SharedEwald.move_particles_cost fns e s idxes newpos).map
        (fun p => p.2.previous_cell) = some (some s.cell)
      ∨ SharedEwald.move_particles_cost fns e s idxes newpos = none)
  ∧ SharedEwald.cutoff e = some e.rc
  ∧ (SharedEwald.set_restriction e r).previous_cell = e.previous_cell
  ∧ (SharedEwald.set_restriction e r).kmax2 = e.kmax2
  ∧ (SharedEwald.set_restriction e r).expfactors = e.expfactors
  ∧ (SharedEwald.update e).previous_cell = e.previous_cell
  ∧ (SharedEwald.update e).kmax2 = e.kmax2
  ∧ (SharedEwald.update e).expfactors = e.expfactors := by
  refine ⟨?_, ?_, ?_, ?_, rfl, rfl, rfl, rfl, rfl, rfl, rfl⟩
  · cases hE : SharedEwald.energy fns e s with
    | none => exact Or.inr rfl
    | some p =>
      left
      obtain ⟨e1, hp, hst⟩ := energy_state hE
      rw [Option.map_some', hst,
        show (e1.density_fft fns s).previous_cell = e1.previous_cell
          from rfl,
        (precompute_state hp).2.2.2.2.2.2.2]
  · cases hE : SharedEwald.forces fns e s with
    | none => exact Or.inr rfl
    | some p =>
      left
      obtain ⟨e1, hp, hst⟩ := forces_state hE
      rw [Option.map_some', hst,
        show (e1.density_fft fns s).previous_cell = e1.previous_cell
          from rfl,
        (precompute_state hp).2.2.2.2.2.2.2]
  · cases hE : SharedEwald.virial fns e s with
    | none => exact Or.inr rfl
    | some p =>
      left
      obtain ⟨e1, hp, hst⟩ := virial_state hE
      rw [Option.map_some', hst,
        show (e1.density_fft fns s).previous_cell = e1.previous_cell
          from rfl,
        (precompute_state hp).2.2.2.2.2.2.2]
  · cases hE : SharedEwald.move_particles_cost fns e s idxes newpos with
    | none => exact Or.inr rfl
    | some p =>
      left
      obtain ⟨e1, hp, hst⟩ := move_cost_state hE
      rw [Option.map_some', hst,
        show ((e1.density_fft fns s).compute_delta_rho_move_particles
            fns s idxes newpos).previous_cell = e1.previous_cell from rfl,
        (precompute_state hp).2.2.2.2.2.2.2]

/-- C3 counterexample: `set_restriction` and `update` do not perform any
`precompute`. On a freshly constructed engine (whose `previous_cell` is
`none`) they leave `previous_cell = none`, although every successful
`precompute` sets `previous_cell` to the computed cell, as the last
conjunct shows on the cubic cell. -/
theorem c3_setters_skip_precompute :
    (SharedEwald.set_restriction (Ewald.new fns0 8 2)
        PairRestriction.InterMolecular).previous_cell = none
  ∧ (SharedEwald.update (Ewald.new fns0 8 2)).previous_cell = none
  ∧ SharedEwald.cutoff (Ewald.new fns0 8 2) = some 8
  ∧ (Ewald.new fns0 8 2).previous_cell = none
  ∧ (Ewald.precompute fns0 (Ewald.new fns0 8 2) cell20).map
      Ewald.previous_cell = some (some cell20) :=
  ⟨rfl, rfl, rfl, rfl, by with_unfolding_all rfl⟩

/-- C8: evaluating any entry point against a system whose cell is
infinite or triclinic aborts fatally, for every engine state reachable
from a constructor (the shape invariant `prevCellOk` holds on all
reachable states, last conjunct), and the failure is already in
`precompute` (first conjunct), before any energy accumulation. -/
theorem c8_reject_non_orthorhombic (fns : MathFns) (e : Ewald)
    (s : System) (hok : prevCellOk e)
    (hsh : s.cell.shape ≠ CellShape.Orthorhombic) :
    e.precompute fns s.cell = none
  ∧ SharedEwald.energy fns e s = none
  ∧ SharedEwald.forces fns e s = none
  ∧ SharedEwald.virial fns e s = none
  ∧ (∀ idxes newpos,
      SharedEwald.move_particles_cost fns e s idxes newpos = none)
  ∧ (∀ cutoff kmax ops e2,
      runOps fns (Ewald.new fns cutoff kmax) ops = some e2 →
        prevCellOk e2) := by
  have hpre : e.precompute fns s.cell = none := precompute_fail hok hsh
  refine ⟨hpre, ?_, ?_, ?_, fun idxes newpos => ?_, ?_⟩
  · unfold SharedEwald.energy
    rw [hpre]
    rfl
  · unfold SharedEwald.forces
    rw [hpre]
    rfl
  · unfold SharedEwald.virial
    rw [hpre]
    rfl
  · unfold SharedEwald.move_particles_cost
    rw [hpre]
    rfl
  · intro cutoff kmax ops e2 h
    exact runOps_prevCellOk ops _ e2
      (fun c hc => Option.noConfusion hc) h

/-- Closed witness for `c8_reject_non_orthorhombic`: requesting the
energy of the NaCl-like pair in a triclinic cell aborts. -/
theorem c8_reject_non_orthorhombic_witness :
    Ewald.precompute fns0 (Ewald.new fns0 8 2)
        { s2 with cell := cellTri }.cell = none
  ∧ SharedEwald.energy fns0 (Ewald.new fns0 8 2)
      { s2 with cell := cellTri } = none :=
  ⟨(c8_reject_non_orthorhombic fns0 (Ewald.new fns0 8 2)
      { s2 with cell := cellTri }
      (fun c hc => Option.noConfusion hc) (by with_unfolding_all decide)).1,
   (c8_reject_non_orthorhombic fns0 (Ewald.new fns0 8 2)
      { s2 with cell := cellTri }
      (fun c hc => Option.noConfusion hc) (by with_unfolding_all decide)).2.1⟩

/-- Every driver step preserves positivity of `alpha`: only `set_alpha`
writes the field, and it aborts on non-positive input. -/
theorem step_alpha_pos {fns : MathFns} {e : Ewald} {op : Op} {e2 : Ewald}
    (ha : 0 < e.alpha) (h : step fns e op = some e2) : 0 < e2.alpha := by
  cases op with
  | setAlpha a =>
    simp only [step] at h
    unfold Ewald.set_alpha at h
    split_ifs at h with hpos
    cases h
    exact hpos
  | setRestriction r =>
    cases h
    exact ha
  | precompute c =>
    rw [(precompute_state h).1]
    exact ha
  | densityFft s =>
    simp only [step] at h
    obtain ⟨e1, hp, he2⟩ := Option.map_eq_some'.mp h
    cases he2
    show 0 < (e1.density_fft fns s).alpha
    rw [(density_fft_state fns e1 s).1, (precompute_state hp).1]
    exact ha
  | energy s =>
    simp only [step] at h
    obtain ⟨p, hp, he2⟩ := Option.map_eq_some'.mp h
    obtain ⟨e1, hpre, hst⟩ := energy_state hp
    cases he2
    rw [hst, (density_fft_state fns e1 s).1, (precompute_state hpre).1]
    exact ha
  | forces s =>
    simp only [step] at h
    obtain ⟨p, hp, he2⟩ := Option.map_eq_some'.mp h
    obtain ⟨e1, hpre, hst⟩ := forces_state hp
    cases he2
    rw [hst, (density_fft_state fns e1 s).1, (precompute_state hpre).1]
    exact ha
  | virial s =>
    simp only [step] at h
    obtain ⟨p, hp, he2⟩ := Option.map_eq_some'.mp h
    obtain ⟨e1, hpre, hst⟩ := virial_state hp
    cases he2
    rw [hst, (density_fft_state fns e1 s).1, (precompute_state hpre).1]
    exact ha
  | moveCost s idxes newpos =>
    simp only [step] at h
    obtain ⟨p, hp, he2⟩ := Option.map_eq_some'.mp h
    obtain ⟨e1, hpre, hst⟩ := move_cost_state hp
    cases he2
    rw [hst]
    show 0 < (e1.density_fft fns s).alpha
    rw [(density_fft_state fns e1 s).1, (precompute_state hpre).1]
    exact ha
  | update =>
    cases h
    exact ha

/-- C2: starting from `Ewald::new(cutoff, kmax)` with a positive cutoff,
`alpha` is strictly positive in every reachable state, and `set_alpha`
aborts exactly on non-positive arguments. -/
theorem c2_alpha_positive_invariant (fns : MathFns) (cutoff : ℚ)
    (kmax : ℕ) (hc : 0 < cutoff) :
    (∀ (e : Ewald) (a : ℚ), e.set_alpha a = none ↔ ¬ 0 < a)
  ∧ 0 < (Ewald.new fns cutoff kmax).alpha
  ∧ (∀ ops e2, runOps fns (Ewald.new fns cutoff kmax) ops = some e2 →
      0 < e2.alpha) := by
  have hnew : 0 < (Ewald.new fns cutoff kmax).alpha := by
    show 0 < 3 * fns.pi / (cutoff * 4)
    exact div_pos (mul_pos (by norm_num) fns.pi_pos)
      (mul_pos hc (by norm_num))
  refine ⟨?_, hnew, ?_⟩
  · intro e a
    by_cases h : 0 < a <;> simp [Ewald.set_alpha, h]
  · have key : ∀ (ops : List Op) (e e2 : Ewald), 0 < e.alpha →
        runOps fns e ops = some e2 → 0 < e2.alpha := by
      intro ops
      induction ops with
      | nil =>
        intro e e2 h0 hr
        cases hr
        exact h0
      | cons op rest ih =>
        intro e e2 h0 hr
        unfold runOps at hr
        rw [List.foldlM_cons] at hr
        obtain ⟨e1, h1, h2⟩ := Option.bind_eq_some.mp hr
        exact ih e1 e2 (step_alpha_pos h0 h1) h2
    intro ops e2 h
    exact key ops _ e2 hnew h

/-- Closed witness for `c2_alpha_positive_invariant`: `set_alpha (-1)`
aborts, and after the driver runs `set_alpha 2` from `new(8, 2)` the
stored alpha, 2, is positive. -/
theorem c2_alpha_positive_invariant_witness :
    (Ewald.new fns0 8 2).set_alpha (-1) = none
  ∧ 0 < ({ Ewald.new fns0 8 2 with alpha := 2 } : Ewald).alpha :=
  ⟨((c2_alpha_positive_invariant fns0 8 2 (by norm_num)).1
      (Ewald.new fns0 8 2) (-1)).mpr (by norm_num),
   (c2_alpha_positive_invariant fns0 8 2 (by norm_num)).2.2
      [Op.setAlpha 2] _ (by with_unfolding_all rfl)⟩

/-- The three conditional doublings of the octant fold equal a single
factor `2^(number of non-zero indices)`. -/
theorem fold_factor (a : ℚ) (ikx iky ikz : ℕ) :
    a * (if ikx ≠ 0 then (2 : ℚ) else 1) * (if iky ≠ 0 then (2 : ℚ) else 1)
        * (if ikz ≠ 0 then (2 : ℚ) else 1)
      = a * 2 ^ ((if ikx = 0 then 0 else 1) + (if iky = 0 then 0 else 1)
          + (if ikz = 0 then 0 else 1)) := by
  by_cases hx : ikx = 0 <;> by_cases hy : iky = 0 <;>
    by_cases hz : ikz = 0 <;> simp [hx, hy, hz] <;> ring

/-- C6, corrected: after a `precompute` call that actually recomputes
(cell different from `previous_cell`, orthorhombic shape), the
`expfactors` array satisfies the claimed shape: the `(0,0,0)` entry is
0, every entry whose reciprocal vector exceeds the spherical cutoff
`kmax2` is 0, and every other entry is
`exp(-|k|^2/(4 alpha^2))/|k|^2 * 2^(number of non-zero indices)`;
`kmax2` is set to `(kmax * 2 pi / max(Lx, Ly, Lz))^2`, and `alpha` is
unchanged. (A no-op `precompute` — same cell as `previous_cell` — keeps
the old entries, which can be stale with respect to `alpha` if
`set_alpha` intervened; see the counterexample.) -/
theorem c6_expfactors_after_recompute (fns : MathFns) (e : Ewald)
    (c : UnitCell) (ikx iky ikz : ℕ)
    (hne : e.previous_cell ≠ some c)
    (hsh : c.shape = CellShape.Orthorhombic) :
    let kr := (e.kmax : ℚ)
      * (2 * fns.pi / max (max c.lengths.x c.lengths.y) c.lengths.z)
    let rec3 := c.reciprocal_vectors fns
    let k := (ikx : ℚ) • rec3.1 + (iky : ℚ) • rec3.2.1
      + (ikz : ℚ) • rec3.2.2
    ((e.precompute fns c).map Ewald.kmax2 = some (kr * kr))
  ∧ ((e.precompute fns c).map Ewald.alpha = some e.alpha)
  ∧ ((e.precompute fns c).map (fun x => x.expfactors 0 0 0) = some 0)
  ∧ (k.norm2 > kr * kr →
      (e.precompute fns c).map (fun x => x.expfactors ikx iky ikz)
        = some 0)
  ∧ (¬ (ikx = 0 ∧ iky = 0 ∧ ikz = 0) → k.norm2 ≤ kr * kr →
      (e.precompute fns c).map (fun x => x.expfactors ikx iky ikz)
        = some (fns.exp (-k.norm2 / (4 * e.alpha * e.alpha)) / k.norm2
            * 2 ^ ((if ikx = 0 then 0 else 1) + (if iky = 0 then 0 else 1)
                + (if ikz = 0 then 0 else 1)))) := by
  intro kr rec3 k
  have hpre : e.precompute fns c
      = some { e with
          previous_cell := some c
          kmax2 := kr * kr
          expfactors := fun ikx iky ikz =>
            if ikx = 0 ∧ iky = 0 ∧ ikz = 0 then 0
            else
              let kv := (ikx : ℚ) • rec3.1 + (iky : ℚ) • rec3.2.1
                + (ikz : ℚ) • rec3.2.2
              let k2 := kv.norm2
              if k2 > kr * kr then 0
              else
                fns.exp (-k2 / (4 * e.alpha * e.alpha)) / k2
                  * (if ikx ≠ 0 then 2 else 1)
                  * (if iky ≠ 0 then 2 else 1)
                  * (if ikz ≠ 0 then 2 else 1) } := by
    unfold Ewald.precompute
    rw [if_neg hne, hsh]
  refine ⟨?_, ?_, ?_, ?_, ?_⟩
  · rw [hpre, Option.map_some']
  · rw [hpre, Option.map_some']
  · rw [hpre, Option.map_some']
    simp
  · intro hk
    rw [hpre, Option.map_some']
    by_cases h0 : ikx = 0 ∧ iky = 0 ∧ ikz = 0
    · simp [h0]
    · simp only [h0, if_false, if_pos hk, Option.some.injEq]
  · intro h0 hk
    rw [hpre, Option.map_some', Option.some.injEq]
    show (if ikx = 0 ∧ iky = 0 ∧ ikz = 0 then (0 : ℚ)
        else if k.norm2 > kr * kr then 0
        else fns.exp (-k.norm2 / (4 * e.alpha * e.alpha)) / k.norm2
          * (if ikx ≠ 0 then 2 else 1) * (if iky ≠ 0 then 2 else 1)
          * (if ikz ≠ 0 then 2 else 1)) = _
    rw [if_neg h0, if_neg (not_lt.mpr hk)]
    exact fold_factor _ ikx iky ikz

/-- Closed witness for `c6_expfactors_after_recompute`: the fresh
engine `new(8, 2)` precomputed on the cubic cell of side 20 (with the
concrete bundle `fns0`, whose `exp` is the identity) stores
`kmax2 = 9/25` and `expfactors(1,0,0) = -512/81`, which is the claimed
formula at `alpha = 9/32`. -/
theorem c6_expfactors_after_recompute_witness :
    ((Ewald.new fns0 8 2).precompute fns0 cell20).map Ewald.kmax2
      = some (9 / 25)
  ∧ ((Ewald.new fns0 8 2).precompute fns0 cell20).map
      (fun x => x.expfactors 0 0 0) = some 0
  ∧ ((Ewald.new fns0 8 2).precompute fns0 cell20).map
      (fun x => x.expfactors 1 0 0) = some (-512 / 81) := by
  have h := c6_expfactors_after_recompute fns0 (Ewald.new fns0 8 2)
    cell20 1 0 0 (by with_unfolding_all decide) rfl
  refine ⟨?_, h.2.2.1, ?_⟩
  · rw [h.1]
    with_unfolding_all rfl
  · rw [h.2.2.2.2 (by with_unfolding_all decide)
      (by with_unfolding_all decide)]
    with_unfolding_all rfl

/-- C6 counterexample: the claim as stated fails after `set_alpha`,
because a `precompute` with an unchanged cell is a no-op and does not
refresh `expfactors` for the new `alpha`. Running `new(8, 2)`,
`precompute(cubic 20)`, `set_alpha 1`, `precompute(cubic 20)` succeeds
and leaves `alpha = 1` but `expfactors(1,0,0) = -512/81` (computed with
the old `alpha = 9/32`), while the claimed formula at the current
`alpha` gives `exp(-(9/100)/4)/(9/100) * 2 = -1/2` under `fns0`. -/
theorem c6_expfactors_stale_after_set_alpha :
    ((((Ewald.new fns0 8 2).precompute fns0 cell20).bind
        (fun e1 => e1.set_alpha 1)).bind
      (fun e2 => (e2.precompute fns0 cell20).map
        (fun e3 => (e3.alpha, e3.expfactors 1 0 0))))
      = some (1, -512 / 81)
  ∧ ((-512 : ℚ) / 81)
      ≠ fns0.exp (-(9 / 100) / (4 * 1 * 1)) / (9 / 100) * 2 :=
  ⟨by with_unfolding_all rfl, by with_unfolding_all decide⟩

/-- Charge access is zero everywhere once it is zero for all in-range
indices (out-of-range access yields the default particle, whose charge
is zero). -/
theorem particle_charge_all_zero {s : System}
    (hq : ∀ i < s.size, (s.particle i).charge = 0) :
    ∀ i, (s.particle i).charge = 0 := by
  intro i
  by_cases h : i < s.size
  · exact hq i h
  · unfold System.particle
    rw [List.getD_eq_default _ _ (not_lt.mp h)]
    rfl

/-- A monadic fold over `Option` that skips every element returns its
accumulator. -/
theorem foldlM_skip {α β : Type} (f : β → α → Option β) :
    ∀ (l : List α) (acc : β), (∀ b x, x ∈ l → f b x = some b) →
      l.foldlM f acc = some acc := by
  intro l
  induction l with
  | nil => intro acc _; rfl
  | cons a t ih =>
    intro acc h
    rw [List.foldlM_cons, h acc a (List.mem_cons_self a t)]
    exact ih acc fun b x hx => h b x (List.mem_cons_of_mem a hx)

/-- With all charges zero, the real-space sum skips every pair. -/
theorem real_space_energy_zero (fns : MathFns) (e : Ewald) (s : System)
    (hq : ∀ i, (s.particle i).charge = 0) :
    e.real_space_energy fns s = some 0 := by
  unfold Ewald.real_space_energy
  apply foldlM_skip
  intro b x _
  simp [hq x.1]

/-- With all charges zero, the molecular-correction sum skips every
pair. -/
theorem molcorrect_energy_zero (fns : MathFns) (e : Ewald) (s : System)
    (hq : ∀ i, (s.particle i).charge = 0) :
    e.molcorrect_energy fns s = some 0 := by
  unfold Ewald.molcorrect_energy
  apply foldlM_skip
  intro b x _
  simp [hq x.1]

/-- With all charges zero, the self-energy term is exactly zero. -/
theorem self_energy_zero (fns : MathFns) (e : Ewald) (s : System)
    (hq : ∀ i, (s.particle i).charge = 0) :
    e.self_energy fns s = 0 := by
  unfold Ewald.self_energy
  rw [Finset.sum_eq_zero fun i _ => by rw [hq i]; ring]
  simp

/-- With all charges zero, the Fourier density vanishes identically. -/
theorem densityOf_zero (fns : MathFns) (s : System)
    (hq : ∀ i, (s.particle i).charge = 0) (ikx iky ikz : ℕ) :
    Ewald.densityOf fns s ikx iky ikz = 0 := by
  unfold Ewald.densityOf
  exact Finset.sum_eq_zero fun j _ => by
    rw [hq j]; exact Complex.zero_smul _

/-- With all charges zero, the k-space energy is exactly zero (every
`|ρ|²` factor vanishes, and `fns.sqrt 0 = 0`). -/
theorem kspace_energy_zero (fns : MathFns) (e : Ewald) (s : System)
    (hq : ∀ i, (s.particle i).charge = 0) :
    (e.kspace_energy fns s).1 = 0 := by
  show (∑ t in (triplesUpto (e.density_fft fns s).kmax).toFinset,
      (if |(e.density_fft fns s).expfactors t.1 t.2.1 t.2.2| < EPSILON
        then 0
        else
          let density := Complex.norm fns
            ((e.density_fft fns s).rho t.1 t.2.1 t.2.2)
          (e.density_fft fns s).expfactors t.1 t.2.1 t.2.2
            * density * density))
    * (2 * fns.pi / (s.cell.volume * ELCC)) = 0
  rw [Finset.sum_eq_zero, zero_mul]
  intro t _
  by_cases hc : |(e.density_fft fns s).expfactors t.1 t.2.1 t.2.2| < EPSILON
  · rw [if_pos hc]
  · rw [if_neg hc]
    have hrho : (e.density_fft fns s).rho t.1 t.2.1 t.2.2 = 0 := by
      show Ewald.densityOf fns s t.1 t.2.1 t.2.2 = 0
      exact densityOf_zero fns s hq t.1 t.2.1 t.2.2
    have hnorm : Complex.norm fns ((e.density_fft fns s).rho t.1 t.2.1 t.2.2) = 0 := by
      rw [hrho]
      show fns.sqrt (Complex.norm2 0) = 0
      rw [show Complex.norm2 0 = 0 by norm_num [Complex.norm2]]
      exact fns.sqrt_zero
    simp only [hnorm, mul_zero]

/-- `precompute` succeeds on every orthorhombic cell. -/
theorem precompute_isSome_of_shape {fns : MathFns} {e : Ewald}
    {c : UnitCell} (hsh : c.shape = CellShape.Orthorhombic) :
    ∃ e2, e.precompute fns c = some e2 := by
  unfold Ewald.precompute
  by_cases hp : e.previous_cell = some c
  · exact ⟨e, by rw [if_pos hp]⟩
  · rw [if_neg hp, hsh]
    exact ⟨_, rfl⟩

/-- C10: for every system over an orthorhombic cell whose particles all
have charge exactly 0, the wrapper's `energy` returns exactly 0: the
real-space and molecular-correction sums skip all pairs, the self-energy
is zero, and the Fourier density `rho` is identically zero so the
k-space sum contributes nothing. -/
theorem c10_energy_zero_for_chargeless (fns : MathFns) (e : Ewald)
    (s : System) (hsh : s.cell.shape = CellShape.Orthorhombic)
    (hq : ∀ i < s.size, (s.particle i).charge = 0) :
    (SharedEwald.energy fns e s).map Prod.fst = some 0 := by
  have hq2 := particle_charge_all_zero hq
  obtain ⟨e1, hp⟩ := @precompute_isSome_of_shape fns e s.cell hsh
  unfold SharedEwald.energy
  rw [hp]
  simp only [Option.bind_eq_bind, Option.some_bind]
  rw [real_space_energy_zero fns e1 s hq2]
  simp only [Option.some_bind]
  rw [molcorrect_energy_zero fns ((e1.kspace_energy fns s).2) s hq2]
  simp only [Option.some_bind, Option.map_some']
  rw [self_energy_zero fns e1 s hq2, kspace_energy_zero fns e1 s hq2]
  norm_num

/-- Closed witness for `c10_energy_zero_for_chargeless`: the energy of
the one-particle chargeless system `s1z` is zero. -/
theorem c10_energy_zero_for_chargeless_witness :
    (SharedEwald.energy fns0 (Ewald.new fns0 8 2) s1z).map Prod.fst
      = some 0 :=
  c10_energy_zero_for_chargeless fns0 (Ewald.new fns0 8 2) s1z rfl
    (by with_unfolding_all decide)

/-- `set_position` preserves the particle count. -/
theorem set_position_size (s : System) (i : ℕ) (x : Vector3D) :
    (s.set_position i x).size = s.size := by
  simp [System.set_position, System.size]

/-- `set_position` leaves all other particles untouched. -/
theorem set_position_particle_ne {s : System} {i j : ℕ} {x : Vector3D}
    (h : j ≠ i) : (s.set_position i x).particle j = s.particle j := by
  unfold System.set_position System.particle
  simp [List.getD, List.getElem?_set_ne (Ne.symm h)]

/-- `set_position` replaces exactly the position of the given
particle. -/
theorem set_position_particle_self {s : System} {i : ℕ} {x : Vector3D}
    (hi : i < s.size) :
    (s.set_position i x).particle i
      = { s.particle i with position := x } := by
  unfold System.set_position System.particle
  simp [List.getD, List.getElem?_set_eq_of_lt _ hi]

/-- Moving one particle shifts the Fourier density by that particle's
charge times the difference of its phase products. -/
theorem densityOf_set_position (fns : MathFns) (s : System) {i : ℕ}
    (x : Vector3D) (hi : i < s.size) (ikx iky ikz : ℕ) :
    Ewald.densityOf fns (s.set_position i x) ikx iky ikz
      = Ewald.densityOf fns s ikx iky ikz
        + (s.particle i).charge •
            (Ewald.phi3 fns s.cell x ikx iky ikz
              - Ewald.phi3 fns s.cell (s.particle i).position ikx iky ikz) := by
  unfold Ewald.densityOf
  rw [set_position_size]
  have hterm : ∀ j ∈ Finset.range s.size,
      ((s.set_position i x).particle j).charge •
          Ewald.phi3 fns (s.set_position i x).cell
            ((s.set_position i x).particle j).position ikx iky ikz
        = (s.particle j).charge •
            Ewald.phi3 fns s.cell (s.particle j).position ikx iky ikz
          + (if j = i then (s.particle i).charge •
              (Ewald.phi3 fns s.cell x ikx iky ikz
                - Ewald.phi3 fns s.cell (s.particle i).position ikx iky ikz)
             else 0) := by
    intro j hj
    by_cases hji : j = i
    · subst hji
      rw [set_position_particle_self hi, if_pos rfl]
      show (s.particle j).charge • Ewald.phi3 fns s.cell x ikx iky ikz = _
      rw [Complex.smul_sub]
      abel
    · rw [set_position_particle_ne hji, if_neg hji, add_zero]
      rfl
  rw [Finset.sum_congr rfl hterm, Finset.sum_add_distrib,
    Finset.sum_ite_eq' (Finset.range s.size) i,
    if_pos (Finset.mem_range.mpr hi)]

/-- Folding a list of single-particle moves with pairwise distinct
indices shifts the Fourier density by the sum of the individual phase
differences, all taken against the original system. -/
theorem densityOf_move_list (fns : MathFns) :
    ∀ (pairs : List (ℕ × Vector3D)) (s : System) (ikx iky ikz : ℕ),
      (pairs.map Prod.fst).Nodup → (∀ p ∈ pairs, p.1 < s.size) →
      Ewald.densityOf fns
          (pairs.foldl (fun t p => t.set_position p.1 p.2) s) ikx iky ikz
        = Ewald.densityOf fns s ikx iky ikz
          + (pairs.map fun p => (s.particle p.1).charge •
              (Ewald.phi3 fns s.cell p.2 ikx iky ikz
                - Ewald.phi3 fns s.cell (s.particle p.1).position
                    ikx iky ikz)).sum := by
  intro pairs
  induction pairs with
  | nil =>
    intro s ikx iky ikz _ _
    simp
  | cons hd tl ih =>
    intro s ikx iky ikz hnd hb
    rw [List.map_cons] at hnd
    obtain ⟨hhd, htl⟩ := List.nodup_cons.mp hnd
    rw [List.foldl_cons]
    have hb2 : ∀ p ∈ tl, p.1 < (s.set_position hd.1 hd.2).size := by
      rw [set_position_size]
      exact fun p hp => hb p (List.mem_cons_of_mem hd hp)
    rw [ih (s.set_position hd.1 hd.2) ikx iky ikz htl hb2]
    have hmap : (tl.map fun p =>
        ((s.set_position hd.1 hd.2).particle p.1).charge •
          (Ewald.phi3 fns (s.set_position hd.1 hd.2).cell p.2 ikx iky ikz
            - Ewald.phi3 fns (s.set_position hd.1 hd.2).cell
                ((s.set_position hd.1 hd.2).particle p.1).position
                ikx iky ikz))
        = tl.map fun p => (s.particle p.1).charge •
            (Ewald.phi3 fns s.cell p.2 ikx iky ikz
              - Ewald.phi3 fns s.cell (s.particle p.1).position
                  ikx iky ikz) := by
      apply List.map_congr_left
      intro p hp
      have hne : p.1 ≠ hd.1 := fun hEq =>
        hhd (hEq ▸ List.mem_map_of_mem Prod.fst hp)
      rw [set_position_particle_ne hne]
      rfl
    rw [hmap,
      densityOf_set_position fns s hd.2
        (hb hd (List.mem_cons_self hd tl)) ikx iky ikz,
      List.map_cons, List.sum_cons, add_assoc]

/-- C9: `update` adds `delta_rho` to `rho` elementwise over the octant
and changes no other field; and between a successful
`move_particles_cost` and its `update`, `rho` is unchanged (from a clean
state where it matched the system's Fourier density) while `delta_rho`
holds the pending change — applying `update` makes `rho` equal the
Fourier density of the moved configuration. -/
theorem c9_update_applies_delta (fns : MathFns) (e : Ewald) (s : System)
    (idxes : List ℕ) (newpos : List Vector3D)
    (hclean : e.rho = Ewald.densityOf fns s)
    (hnd : idxes.Nodup)
    (hb : ∀ i ∈ idxes, i < s.size)
    (hlen : idxes.length = newpos.length) :
    (∀ (x : Ewald) (ikx iky ikz : ℕ),
        (SharedEwald.update x).rho ikx iky ikz
          = x.rho ikx iky ikz + x.delta_rho ikx iky ikz)
  ∧ (∀ x : Ewald, (SharedEwald.update x).alpha = x.alpha
      ∧ (SharedEwald.update x).rc = x.rc
      ∧ (SharedEwald.update x).kmax = x.kmax
      ∧ (SharedEwald.update x).kmax2 = x.kmax2
      ∧ (SharedEwald.update x).restriction = x.restriction
      ∧ (SharedEwald.update x).expfactors = x.expfactors
      ∧ (SharedEwald.update x).fourier_phases = x.fourier_phases
      ∧ (SharedEwald.update x).delta_rho = x.delta_rho
      ∧ (SharedEwald.update x).previous_cell = x.previous_cell)
  ∧ (∀ e2, (SharedEwald.move_particles_cost fns e s idxes newpos).map
        Prod.snd = some e2 →
      e2.rho = e.rho
      ∧ e2.delta_rho = Ewald.deltaRhoOf fns s idxes newpos
      ∧ (∀ ikx iky ikz, (SharedEwald.update e2).rho ikx iky ikz
          = Ewald.densityOf fns (s.move_particles idxes newpos)
              ikx iky ikz)) := by
  refine ⟨fun x ikx iky ikz => rfl,
    fun x => ⟨rfl, rfl, rfl, rfl, rfl, rfl, rfl, rfl, rfl⟩, ?_⟩
  intro e2 h
  obtain ⟨p, hp, hsnd⟩ := Option.map_eq_some'.mp h
  obtain ⟨e1, hpre, hst⟩ := move_cost_state hp
  have he2 : e2 = (e1.density_fft fns s).compute_delta_rho_move_particles
      fns s idxes newpos := by rw [← hsnd, hst]
  subst he2
  refine ⟨?_, rfl, ?_⟩
  · show Ewald.densityOf fns s = e.rho
    exact hclean.symm
  · intro ikx iky ikz
    show Ewald.densityOf fns s ikx iky ikz
        + Ewald.deltaRhoOf fns s idxes newpos ikx iky ikz
      = Ewald.densityOf fns (s.move_particles idxes newpos) ikx iky ikz
    have hnd2 : ((idxes.zip newpos).map Prod.fst).Nodup := by
      rw [List.map_fst_zip idxes newpos (le_of_eq hlen)]
      exact hnd
    have hb2 : ∀ p ∈ idxes.zip newpos, p.1 < s.size := by
      intro p hp2
      obtain ⟨a, b⟩ := p
      exact hb a (List.of_mem_zip hp2).1
    unfold System.move_particles
    rw [densityOf_move_list fns (idxes.zip newpos) s ikx iky ikz hnd2 hb2]
    rfl

/-- A clean engine state for the C9 witness: caches built for the
two-particle system `s2`, with its cell recorded. -/
def eW : Ewald :=
  { (Ewald.new fns0 8 1).density_fft fns0 s2 with
      previous_cell := some s2.cell }

/-- The engine state left by `move_particles_cost` on `eW` when moving
particle 1 of `s2` to `(2, 0, 0)`. -/
def e2W : Ewald :=
  (eW.density_fft fns0 s2).compute_delta_rho_move_particles fns0 s2
    [1] [⟨2, 0, 0⟩]

/-- Closed witness for `c9_update_applies_delta`: on `s2`, moving
particle 1 to `(2, 0, 0)` leaves `delta_rho` holding the pending change
and `update` lands `rho` on the moved configuration's density. -/
theorem c9_update_applies_delta_witness :
    (SharedEwald.update e2W).rho 0 0 0
        = Ewald.densityOf fns0
            (s2.move_particles [1] [⟨2, 0, 0⟩]) 0 0 0
  ∧ e2W.delta_rho = Ewald.deltaRhoOf fns0 s2 [1] [⟨2, 0, 0⟩] := by
  have h := (c9_update_applies_delta fns0 eW s2 [1] [⟨2, 0, 0⟩] rfl
      (by simp) (by with_unfolding_all decide) rfl).2.2 e2W
      (by with_unfolding_all rfl)
  exact ⟨h.2.2 0 0 0, h.2.1⟩

end Lumol
